import Mathlib

/-!
Shallow embedding of the Personal Expense Tracker (src/main.py):
a FastAPI application over a single SQLite table

  CREATE TABLE IF NOT EXISTS expenses (
      id INTEGER PRIMARY KEY AUTOINCREMENT,
      title TEXT, amount REAL, category TEXT, date TEXT)

with three routes:

  GET  /                   -> index          (SELECT * FROM expenses ORDER BY date DESC,
                                              total = sum of column `amount`, render page)
  POST /add                -> add_expense    (required Form fields title, amount:float,
                                              category; INSERT with date =
                                              datetime.now().strftime("%Y-%m-%d");
                                              303 redirect to /)
  GET  /delete/{expense_id}-> delete_expense (path parameter parsed as int;
                                              DELETE FROM expenses WHERE id = ?;
                                              303 redirect to /)

Modelling conventions:
* SQLite TEXT values that are ordered by the engine (the `date` column) are modelled
  as their byte sequences (`List Nat`), and the BINARY collation used by
  `ORDER BY date DESC` as memcmp, i.e. lexicographic comparison of those bytes
  (`lexLt`).  `title` and `category` are never compared, so they stay `String`.
* SQLite REAL (`amount`) is modelled as an exact rational; floating-point rounding
  is abstracted away.
* The table is a list of rows in rowid (insertion) order together with the
  AUTOINCREMENT sequence counter; AUTOINCREMENT assigns `nextId` and bumps it, so
  identifiers are never reused even after a DELETE.
* `ORDER BY date DESC` is modelled as a stable sort (descending in the byte order)
  of the rows in rowid order: for rows with equal keys SQLite produces some fixed
  order for a given stored table; the spec pins it to insertion order and requires
  determinism, which the stable sort realises (and being a pure function of the
  state, it trivially returns identical results on repeated calls with no
  intervening writes).
* FastAPI request validation (`Form(...)` required fields, `amount: float`
  coercion, `expense_id: int` path coercion) rejects a request with a 422
  client-error response without running the handler body; this is modelled by the
  `Option`-valued form fields and the parsers `pythonFloat` / `pythonInt` below.
* `datetime.now()` is modelled as an explicit `Date` argument to `add_expense`
  (the server clock at the time of the request).
-/

namespace ExpenseTracker

/-- Byte-wise lexicographic strict order on byte sequences: the memcmp order used
by SQLite BINARY collation for `ORDER BY date DESC` in src/main.py line 103. -/
def lexLt : List Nat → List Nat → Bool
  | [], [] => false
  | [], _ :: _ => true
  | _ :: _, [] => false
  | a :: as, b :: bs => if a < b then true else if b < a then false else lexLt as bs

/-- The `w` base-10 digits of `n` (most significant first), as digit values.
Underlies the zero-padded fields of `strftime("%Y-%m-%d")`. -/
def padDigits : Nat → Nat → List Nat
  | 0, _ => []
  | w + 1, n => n / 10 ^ w :: padDigits w (n % 10 ^ w)

/-- The `w` base-10 digits of `n` as ASCII bytes (code of the digit character). -/
def dig (w n : Nat) : List Nat := (padDigits w n).map (fun d => 48 + d)

/-- A calendar date as held by Python's `datetime`. -/
structure Date where
  year : Nat
  month : Nat
  day : Nat
deriving DecidableEq, Repr

/-- Dates the create handler can produce: `datetime.now()` returns the current
local date, whose year is four digits; month and day are in calendar range. -/
def ValidDate (d : Date) : Prop :=
  1000 ≤ d.year ∧ d.year ≤ 9999 ∧ 1 ≤ d.month ∧ d.month ≤ 12 ∧ 1 ≤ d.day ∧ d.day ≤ 31

instance (d : Date) : Decidable (ValidDate d) := by
  unfold ValidDate
  infer_instance

/-- Models `datetime.now().strftime("%Y-%m-%d")` (src/main.py line 120): the date
as the bytes of `YYYY-MM-DD`; 45 is the ASCII code of the hyphen. -/
def fmtDate (d : Date) : List Nat :=
  dig 4 d.year ++ 45 :: (dig 2 d.month ++ 45 :: dig 2 d.day)

/-- One row of the `expenses` table, in `SELECT *` column order
(id, title, amount, category, date). -/
structure Expense where
  id : Int
  title : String
  amount : ℚ
  category : String
  date : List Nat
deriving DecidableEq, Repr

/-- The database state: rows in rowid (insertion) order, plus the AUTOINCREMENT
sequence, which SQLite keeps in `sqlite_sequence` and never rewinds on DELETE. -/
structure DB where
  rows : List Expense
  nextId : Int
deriving DecidableEq, Repr

/-- The state after `CREATE TABLE IF NOT EXISTS expenses (...)` on a fresh file:
no rows, AUTOINCREMENT will assign 1 first. -/
def initDB : DB := ⟨[], 1⟩

/-- Models `INSERT INTO expenses (title, amount, category, date) VALUES
(?, ?, ?, ?)` (src/main.py lines 118-121): appends one row whose id is assigned
by AUTOINCREMENT. -/
def insertRow (db : DB) (title : String) (amount : ℚ) (category : String)
    (date : List Nat) : DB :=
  { rows := db.rows ++ [⟨db.nextId, title, amount, category, date⟩],
    nextId := db.nextId + 1 }

/-- Models `DELETE FROM expenses WHERE id = ?` (src/main.py line 127): removes
every row whose id matches; absent id means nothing matches and nothing
changes. -/
def deleteById (db : DB) (i : Int) : DB :=
  { rows := db.rows.filter (fun e => e.id ≠ i), nextId := db.nextId }

/-- Row comparison used by `ORDER BY date DESC`: `a` may precede `b` when
`a.date ≥ b.date` in the byte (memcmp) order. -/
def dateGe (a b : Expense) : Bool := !lexLt a.date b.date

/-- Insert a row into a date-descending list, after every row with a strictly
later date and before every row with the same or an earlier date (stability:
the inserted row was earlier in rowid order than everything in the list). -/
def insertSorted (e : Expense) : List Expense → List Expense
  | [] => [e]
  | f :: fs => if dateGe e f then e :: f :: fs else f :: insertSorted e fs

/-- Stable sort of the rows by date descending. -/
def sortByDate : List Expense → List Expense
  | [] => []
  | e :: l => insertSorted e (sortByDate l)

/-- Models `SELECT * FROM expenses ORDER BY date DESC` (src/main.py line 103). -/
def listAll (db : DB) : List Expense := sortByDate db.rows

/-- The HTTP responses the three routes can produce. -/
inductive Response where
  /-- 200: the rendered listing page, carrying the record sequence and total. -/
  | page (expenses : List Expense) (total : ℚ)
  /-- Models `RedirectResponse(loc, status_code)`. -/
  | redirect (loc : String) (status : Nat)
  /-- FastAPI request-validation failure (a 4xx client error). -/
  | clientError (status : Nat)
deriving DecidableEq, Repr

/-- The form body of a POST /add request: each field either absent or a raw
string, before FastAPI validation. -/
structure AddForm where
  title : Option String
  amount : Option String
  category : Option String
deriving DecidableEq, Repr

/-- ASCII decimal digit test. -/
def isDigit (c : Char) : Bool := 48 ≤ c.toNat && c.toNat ≤ 57

/-- Value of a string of decimal digits (most significant first). -/
def natOfDigits (l : List Char) : Nat := l.foldl (fun a c => 10 * a + (c.toNat - 48)) 0

/-- Modelled from the spec: the unsigned part of CPython `float()` / pydantic
float coercion for plain decimal literals — digits with an optional fractional
part (the coercion itself lives in FastAPI/pydantic, outside src/).  The claims
depend only on whether coercion succeeds, never on rounding. -/
def parseNumber (cs : List Char) : Option ℚ :=
  let ip := cs.takeWhile isDigit
  match cs.dropWhile isDigit with
  | [] => if ip.isEmpty then none else some (natOfDigits ip)
  | '.' :: fp =>
      if (ip.isEmpty && fp.isEmpty) || !fp.all isDigit then none
      else some ((natOfDigits ip : ℚ) + (natOfDigits fp : ℚ) / 10 ^ fp.length)
  | _ => none

/-- Modelled from the spec: CPython `float()` acceptance with an optional sign,
as applied by FastAPI to `amount: float = Form(...)` (src/main.py line 115). -/
def pythonFloat (s : String) : Option ℚ :=
  match s.data with
  | '-' :: r => (parseNumber r).map (fun q => -q)
  | '+' :: r => parseNumber r
  | r => parseNumber r

/-- Modelled from the spec: CPython `int()` acceptance with an optional sign, as
applied by FastAPI to the `expense_id: int` path parameter (src/main.py
line 126). -/
def pythonInt (s : String) : Option Int :=
  match s.data with
  | '-' :: r => if !r.isEmpty && r.all isDigit then some (-(natOfDigits r : Int)) else none
  | '+' :: r => if !r.isEmpty && r.all isDigit then some (natOfDigits r : Int) else none
  | r => if !r.isEmpty && r.all isDigit then some (natOfDigits r : Int) else none

/-- GET / (src/main.py lines 101-110): fetch all rows ordered by date
descending, total them (`sum(e[2] for e in expenses)`, 0 on the empty
generator), render the page with that row sequence and that total. -/
def index (db : DB) : Response :=
  let expenses := listAll db
  Response.page expenses ((expenses.map Expense.amount).sum)

/-- POST /add (src/main.py lines 112-123): FastAPI rejects the request with a
422 client error if a required form field is absent or `amount` does not coerce
to float; otherwise the handler inserts one row dated with the server's current
local date and answers a 303 redirect to `/`. -/
def add_expense (db : DB) (form : AddForm) (now : Date) : DB × Response :=
  match form.title, form.amount, form.category with
  | some t, some a, some c =>
      match pythonFloat a with
      | some q => (insertRow db t q c (fmtDate now), Response.redirect "/" 303)
      | none => (db, Response.clientError 422)
  | _, _, _ => (db, Response.clientError 422)

/-- GET /delete/{expense_id} (src/main.py lines 125-129): FastAPI rejects the
request with a 422 client error if the path segment does not coerce to int;
otherwise the handler deletes unconditionally and answers a 303 redirect to
`/`. -/
def delete_expense (db : DB) (rawId : String) : DB × Response :=
  match pythonInt rawId with
  | some i => (deleteById db i, Response.redirect "/" 303)
  | none => (db, Response.clientError 422)

/-- The history of a database state: `Trace db ids` holds when `db` is reachable
from the fresh table by the write operations of the application, and `ids` is
the list of identifiers AUTOINCREMENT has ever assigned, in creation order
(deleted ones included). -/
inductive Trace : DB → List Int → Prop where
  | init : Trace initDB []
  | create {db ids} (title : String) (amount : ℚ) (category : String)
      (date : List Nat) :
      Trace db ids → Trace (insertRow db title amount category date) (ids ++ [db.nextId])
  | delete {db ids} (i : Int) :
      Trace db ids → Trace (deleteById db i) ids

/-- Calendar (chronological) strict order on dates: `chronoLt a b` holds when
`a` is an earlier calendar date than `b`. -/
def chronoLt (a b : Date) : Prop :=
  a.year < b.year
    ∨ (a.year = b.year
        ∧ (a.month < b.month ∨ (a.month = b.month ∧ a.day < b.day)))

instance (a b : Date) : Decidable (chronoLt a b) := by
  unfold chronoLt
  infer_instance

/-- A concrete server date, used to instantiate theorems at concrete inputs. -/
def sampleDate : Date := ⟨2025, 3, 7⟩

/-- A concrete stored row, used to instantiate theorems at concrete inputs. -/
def sampleRowA : Expense := ⟨1, "Coffee", 4, "Food", fmtDate sampleDate⟩

/-- A second concrete stored row with a distinct id. -/
def sampleRowB : Expense := ⟨2, "Bus", 2, "Transport", fmtDate sampleDate⟩

/-- A concrete database state holding one row. -/
def sampleDB : DB := ⟨[sampleRowA], 2⟩

/-- A concrete database state holding two rows with distinct ids. -/
def sampleDB2 : DB := ⟨[sampleRowA, sampleRowB], 3⟩

/-! ### Order-theoretic facts about the byte comparison `lexLt` -/

theorem lexLt_irrefl (a : List Nat) : lexLt a a = false := by
  induction a with
  | nil => rfl
  | cons x xs ih => simp [lexLt, ih]

theorem lexLt_asymm : ∀ {a b : List Nat}, lexLt a b = true → lexLt b a = false
  | [], [], h => by simp [lexLt] at h
  | [], _ :: _, _ => rfl
  | _ :: _, [], h => by simp [lexLt] at h
  | x :: xs, y :: ys, h => by
      simp only [lexLt] at h ⊢
      split at h
      · next hxy => simp [Nat.lt_asymm hxy, hxy]
      · next hxy =>
          split at h
          · simp at h
          · next hyx => simp [hxy, hyx, lexLt_asymm h]

theorem lexLt_false_trans :
    ∀ {a b c : List Nat}, lexLt a b = false → lexLt b c = false → lexLt a c = false
  | [], [], c, _, hbc => hbc
  | [], _ :: _, _, hab, _ => by simp [lexLt] at hab
  | _ :: _, [], [], _, _ => rfl
  | _ :: _, [], _ :: _, _, hbc => by simp [lexLt] at hbc
  | x :: xs, y :: ys, [], _, _ => rfl
  | x :: xs, y :: ys, z :: zs, hab, hbc => by
      simp only [lexLt] at hab hbc ⊢
      have hxy : ¬ x < y := by intro h; simp [h] at hab
      have hyz : ¬ y < z := by intro h; simp [h] at hbc
      have hxz : ¬ x < z := by omega
      by_cases hzx : z < x
      · simp [hxz, hzx]
      · have hyx : ¬ y < x := by omega
        have hzy : ¬ z < y := by omega
        simp only [if_neg hxy, if_neg hyx, if_false] at hab
        simp only [if_neg hyz, if_neg hzy, if_false] at hbc
        simp [hxz, hzx, lexLt_false_trans hab hbc]

theorem lexLt_ne {a b : List Nat} (h : lexLt a b = true) : a ≠ b := by
  intro hEq
  rw [hEq, lexLt_irrefl] at h
  exact absurd h (by simp)

/-! ### The stable sort behind `ORDER BY date DESC` -/

theorem insertSorted_perm (e : Expense) (l : List Expense) :
    (insertSorted e l).Perm (e :: l) := by
  induction l with
  | nil => exact List.Perm.refl _
  | cons f fs ih =>
      simp only [insertSorted]
      split
      · exact List.Perm.refl _
      · exact ((ih.cons f).trans (List.Perm.swap e f fs))

theorem sortByDate_perm (l : List Expense) : (sortByDate l).Perm l := by
  induction l with
  | nil => exact List.Perm.refl _
  | cons e es ih =>
      exact (insertSorted_perm e (sortByDate es)).trans (ih.cons e)

theorem mem_insertSorted {x e : Expense} {l : List Expense} :
    x ∈ insertSorted e l ↔ x = e ∨ x ∈ l := by
  rw [(insertSorted_perm e l).mem_iff]
  simp

theorem pairwise_insertSorted {e : Expense} {l : List Expense}
    (h : l.Pairwise (fun a b => lexLt a.date b.date = false))
    : (insertSorted e l).Pairwise (fun a b => lexLt a.date b.date = false) := by
  induction l with
  | nil => simp [insertSorted]
  | cons f fs ih =>
      simp only [insertSorted]
      split
      · next hef =>
          have hef' : lexLt e.date f.date = false := by
            simpa [dateGe] using hef
          refine List.Pairwise.cons ?_ h
          intro x hx
          rcases List.mem_cons.mp hx with rfl | hx
          · exact hef'
          · have hfx : lexLt f.date x.date = false :=
              (List.pairwise_cons.mp h).1 x hx
            exact lexLt_false_trans hef' hfx
      · next hef =>
          have hfe : lexLt f.date e.date = false := by
            have : lexLt e.date f.date = true := by
              simpa [dateGe] using hef
            exact lexLt_asymm this
          rcases List.pairwise_cons.mp h with ⟨hf, hfs⟩
          refine List.Pairwise.cons ?_ (ih hfs)
          intro x hx
          rcases mem_insertSorted.mp hx with rfl | hx
          · exact hfe
          · exact hf x hx

theorem sortByDate_sorted (l : List Expense) :
    (sortByDate l).Pairwise (fun a b => lexLt a.date b.date = false) := by
  induction l with
  | nil => simp [sortByDate]
  | cons e es ih => exact pairwise_insertSorted ih

theorem filter_insertSorted_ne {e : Expense} {dt : List Nat}
    (he : e.date ≠ dt) (l : List Expense) :
    (insertSorted e l).filter (fun f => f.date = dt)
      = l.filter (fun f => f.date = dt) := by
  induction l with
  | nil => simp [insertSorted, List.filter_cons, he]
  | cons f fs ih =>
      simp only [insertSorted]
      split
      · simp [List.filter_cons, he]
      · simp [List.filter_cons, ih]

theorem filter_insertSorted_eq (e : Expense) (l : List Expense) :
    (insertSorted e l).filter (fun f => f.date = e.date)
      = e :: l.filter (fun f => f.date = e.date) := by
  induction l with
  | nil => simp [insertSorted, List.filter_cons]
  | cons f fs ih =>
      simp only [insertSorted]
      split
      · simp [List.filter_cons]
      · next hef =>
          have hfe : f.date ≠ e.date := by
            have : lexLt e.date f.date = true := by
              simpa [dateGe] using hef
            exact fun hc => lexLt_ne this hc.symm
          simp [List.filter_cons, hfe, ih]

theorem sortByDate_filter (l : List Expense) (dt : List Nat) :
    (sortByDate l).filter (fun f => f.date = dt)
      = l.filter (fun f => f.date = dt) := by
  induction l with
  | nil => rfl
  | cons e es ih =>
      simp only [sortByDate]
      by_cases he : e.date = dt
      · subst he
        rw [filter_insertSorted_eq, ih]
        simp [List.filter_cons]
      · rw [filter_insertSorted_ne he, ih]
        simp [List.filter_cons, he]

/-! ### Fixed-width decimal strings compare like the numbers they encode -/

theorem dig_succ (w n : Nat) :
    dig (w + 1) n = (48 + n / 10 ^ w) :: dig w (n % 10 ^ w) := rfl

theorem lexLt_cons_same (x : Nat) (s t : List Nat) :
    lexLt (x :: s) (x :: t) = lexLt s t := by
  simp [lexLt]

theorem lexLt_dig (w : Nat) :
    ∀ {a b : Nat} (s t : List Nat), a < 10 ^ w → b < 10 ^ w →
      lexLt (dig w a ++ s) (dig w b ++ t)
        = if a < b then true else if b < a then false else lexLt s t := by
  induction w with
  | zero =>
      intro a b s t ha hb
      rw [pow_zero] at ha hb
      have ha0 : a = 0 := by omega
      have hb0 : b = 0 := by omega
      subst ha0
      subst hb0
      simp [dig, padDigits]
  | succ w ih =>
      intro a b s t ha hb
      have hP : 0 < 10 ^ w := pow_pos (by norm_num) w
      rw [dig_succ, dig_succ, List.cons_append, List.cons_append]
      simp only [lexLt]
      rcases Nat.lt_trichotomy (a / 10 ^ w) (b / 10 ^ w) with h1 | h1 | h1
      · have hab : a < b := Nat.lt_of_div_lt_div h1
        rw [if_pos (Nat.add_lt_add_left h1 48), if_pos hab]
      · have hc1 : ¬ 48 + a / 10 ^ w < 48 + b / 10 ^ w := by
          rw [h1]; exact Nat.lt_irrefl _
        have hc2 : ¬ 48 + b / 10 ^ w < 48 + a / 10 ^ w := by
          rw [h1]; exact Nat.lt_irrefl _
        rw [if_neg hc1, if_neg hc2,
          ih s t (Nat.mod_lt _ hP) (Nat.mod_lt _ hP)]
        have e1 : 10 ^ w * (a / 10 ^ w) + a % 10 ^ w = a := Nat.div_add_mod a _
        have e2 : 10 ^ w * (a / 10 ^ w) + b % 10 ^ w = b := by
          rw [h1]; exact Nat.div_add_mod b _
        generalize 10 ^ w * (a / 10 ^ w) = K at e1 e2
        generalize a % 10 ^ w = ra at e1 ⊢
        generalize b % 10 ^ w = rb at e2 ⊢
        rcases Nat.lt_trichotomy a b with hab | hab | hab
        · rw [if_pos (by omega), if_pos hab]
        · rw [if_neg (by omega), if_neg (by omega),
            if_neg (by omega : ¬ a < b), if_neg (by omega : ¬ b < a)]
        · rw [if_neg (by omega), if_pos (by omega),
            if_neg (by omega : ¬ a < b), if_pos hab]
      · have hba : b < a := Nat.lt_of_div_lt_div h1
        have hc1 : ¬ 48 + a / 10 ^ w < 48 + b / 10 ^ w := by omega
        rw [if_neg hc1, if_pos (Nat.add_lt_add_left h1 48),
          if_neg (Nat.lt_asymm hba), if_pos hba]

/-! ### The AUTOINCREMENT history invariant -/

theorem trace_ids_bounded_increasing {db : DB} {ids : List Int}
    (h : Trace db ids) :
    (∀ j ∈ ids, j < db.nextId) ∧ ids.Pairwise (· < ·) := by
  induction h with
  | init => simp
  | create title amount category date h ih =>
      rcases ih with ⟨hlt, hpw⟩
      constructor
      · intro j hj
        rcases List.mem_append.mp hj with hj | hj
        · have := hlt j hj
          simp only [insertRow]
          omega
        · simp only [List.mem_singleton] at hj
          subst hj
          simp only [insertRow]
          omega
      · rw [List.pairwise_append]
        refine ⟨hpw, by simp, ?_⟩
        intro x hx y hy
        simp only [List.mem_singleton] at hy
        subst hy
        exact hlt x hx
  | delete i h ih => simpa [deleteById] using ih

/-! ### Deleting one row of a duplicate-free table -/

theorem filter_ne_perm {l : List Expense} {e : Expense}
    (h1 : l.Pairwise (fun a b => a.id ≠ b.id)) (h2 : e ∈ l) :
    l.Perm (e :: l.filter (fun f => f.id ≠ e.id)) := by
  induction l with
  | nil => cases h2
  | cons f fs ih =>
      rcases List.pairwise_cons.mp h1 with ⟨hf, hfs⟩
      rcases List.mem_cons.mp h2 with rfl | h2
      · have hp : (e :: fs).filter (fun g => g.id ≠ e.id) = fs := by
          rw [List.filter_cons, if_neg (by simp)]
          exact List.filter_eq_self.mpr
            (by intro a ha; simpa using fun hc => hf a ha hc.symm)
        rw [hp]
      · have hfe : f.id ≠ e.id := hf e h2
        rw [List.filter_cons, if_pos (by simpa using hfe)]
        exact ((ih hfs h2).cons f).trans (List.Perm.swap e f _)

/-! ### The claims -/

/-- C1: for every stored record set, the list-and-total handler renders a total
equal to the arithmetic sum of `amount` over all records returned by the same
`listAll` snapshot it renders, and this total is 0 when the record set is
empty. -/
theorem c1_total_matches_snapshot (db : DB) :
    index db = Response.page (listAll db) (((listAll db).map Expense.amount).sum)
    ∧ (db.rows = [] → index db = Response.page [] 0) := by
  refine ⟨rfl, ?_⟩
  intro h
  simp [index, listAll, h, sortByDate]

theorem c1_witness : index initDB = Response.page [] 0 :=
  (c1_total_matches_snapshot initDB).2 rfl

/-- C2: for every stored record set, `listAll` returns every current record
(a permutation of the stored rows), ordered by date descending in the byte
order SQLite applies, with records sharing a date appearing exactly in their
insertion (rowid) order; being a pure function of the state, repeated listings
with no intervening writes are identical. -/
theorem c2_listing_order (db : DB) :
    (listAll db).Perm db.rows
    ∧ (listAll db).Pairwise (fun a b => lexLt a.date b.date = false)
    ∧ ∀ dt : List Nat,
        (listAll db).filter (fun e => e.date = dt)
          = db.rows.filter (fun e => e.date = dt) :=
  ⟨sortByDate_perm db.rows, sortByDate_sorted db.rows,
    fun dt => sortByDate_filter db.rows dt⟩

/-- C4: deleting an id with no matching record is a successful no-op — the
state is unchanged, the response is still the 303 redirect — and deleting the
same id twice succeeds both times with the second call changing nothing. -/
theorem c4_delete_idempotent_noop (db : DB) (i : Int) (raw : String) :
    ((∀ e ∈ db.rows, e.id ≠ i) → deleteById db i = db)
    ∧ deleteById (deleteById db i) i = deleteById db i
    ∧ (pythonInt raw = some i →
        (delete_expense db raw).2 = Response.redirect "/" 303
        ∧ (delete_expense db raw).1 = deleteById db i) := by
  refine ⟨?_, ?_, ?_⟩
  · intro h
    cases db with
    | mk rows nextId =>
        simp only [deleteById]
        congr 1
        exact List.filter_eq_self.mpr (by intro a ha; simpa using h a ha)
  · simp [deleteById, List.filter_filter]
  · intro h
    constructor <;> simp [delete_expense, h]

theorem c4_witness :
    deleteById sampleDB 9999 = sampleDB
    ∧ deleteById (deleteById sampleDB 9999) 9999 = deleteById sampleDB 9999
    ∧ ((delete_expense sampleDB "9999").2 = Response.redirect "/" 303
        ∧ (delete_expense sampleDB "9999").1 = deleteById sampleDB 9999) := by
  have h := c4_delete_idempotent_noop sampleDB 9999 "9999"
  exact ⟨h.1 (by decide), h.2.1, h.2.2 (by decide)⟩

/-- C5: along every sequence of successful creates (interleaved with deletes),
the identifiers assigned by storage, taken in creation order, are strictly
increasing and pairwise distinct — an id once assigned is never reused, even
after the row holding it is deleted, because the history `ids` keeps deleted
ids. -/
theorem c5_ids_strictly_increasing (db : DB) (ids : List Int)
    (h : Trace db ids) :
    ids.Pairwise (· < ·) ∧ ids.Nodup := by
  have hpw := (trace_ids_bounded_increasing h).2
  exact ⟨hpw, hpw.imp ne_of_lt⟩

theorem c5_witness :
    ([1, 2] : List Int).Pairwise (· < ·) ∧ ([1, 2] : List Int).Nodup := by
  have h0 : Trace initDB [] := Trace.init
  have h1 : Trace (insertRow initDB "Coffee" 4 "Food" (fmtDate sampleDate)) [1] :=
    Trace.create "Coffee" 4 "Food" (fmtDate sampleDate) h0
  have h2 : Trace (insertRow (insertRow initDB "Coffee" 4 "Food" (fmtDate sampleDate))
      "Bus" 2 "Transport" (fmtDate sampleDate)) [1, 2] :=
    Trace.create "Bus" 2 "Transport" (fmtDate sampleDate) h1
  exact c5_ids_strictly_increasing _ _ h2

/-- C6: when the stored ids are pairwise distinct and a record `e` is present,
deleting `e.id` removes exactly that record (the old rows are a permutation of
`e` together with the new rows), no subsequent listing contains a record with
that id, and the displayed total decreases by exactly `e.amount`. -/
theorem c6_delete_removes_exactly_one (db : DB) (e : Expense)
    (h1 : db.rows.Pairwise (fun a b => a.id ≠ b.id)) (h2 : e ∈ db.rows) :
    db.rows.Perm (e :: (deleteById db e.id).rows)
    ∧ (∀ f ∈ listAll (deleteById db e.id), f.id ≠ e.id)
    ∧ ((listAll (deleteById db e.id)).map Expense.amount).sum + e.amount
        = ((listAll db).map Expense.amount).sum := by
  have hperm : db.rows.Perm (e :: (deleteById db e.id).rows) :=
    filter_ne_perm h1 h2
  refine ⟨hperm, ?_, ?_⟩
  · intro f hf
    have hmem : f ∈ (deleteById db e.id).rows :=
      (sortByDate_perm _).subset hf
    simpa [deleteById] using (List.mem_filter.mp hmem).2
  · have hs1 : ((listAll (deleteById db e.id)).map Expense.amount).sum
        = (((deleteById db e.id).rows).map Expense.amount).sum :=
      ((sortByDate_perm _).map _).sum_eq
    have hs2 : ((listAll db).map Expense.amount).sum
        = (db.rows.map Expense.amount).sum :=
      ((sortByDate_perm _).map _).sum_eq
    rw [hs1, hs2, (hperm.map Expense.amount).sum_eq]
    simp [add_comm]

theorem c6_witness :
    sampleDB2.rows.Perm (sampleRowA :: (deleteById sampleDB2 sampleRowA.id).rows)
    ∧ (∀ f ∈ listAll (deleteById sampleDB2 sampleRowA.id), f.id ≠ sampleRowA.id)
    ∧ ((listAll (deleteById sampleDB2 sampleRowA.id)).map Expense.amount).sum
        + sampleRowA.amount
        = ((listAll sampleDB2).map Expense.amount).sum :=
  c6_delete_removes_exactly_one sampleDB2 sampleRowA (by decide) (by decide)

/-- C3: a create request with a missing required field (title, amount or
category) or an amount that does not parse as a number, and a delete request
whose id does not parse as an integer, are answered with a 4xx client error and
leave the stored record set unchanged. -/
theorem c3_validation_rejects_without_mutation (db : DB) (form : AddForm)
    (now : Date) (raw : String) :
    ((form.title = none ∨ form.amount = none ∨ form.category = none
        ∨ ∀ a, form.amount = some a → pythonFloat a = none) →
      (add_expense db form now).1 = db
      ∧ ∃ s, (add_expense db form now).2 = Response.clientError s
          ∧ 400 ≤ s ∧ s < 500)
    ∧ (pythonInt raw = none →
      (delete_expense db raw).1 = db
      ∧ ∃ s, (delete_expense db raw).2 = Response.clientError s
          ∧ 400 ≤ s ∧ s < 500) := by
  constructor
  · intro h
    rcases form with ⟨ot, oa, oc⟩
    rcases ot with _ | t
    · exact ⟨rfl, 422, rfl, by norm_num, by norm_num⟩
    · rcases oa with _ | a
      · exact ⟨rfl, 422, rfl, by norm_num, by norm_num⟩
      · rcases oc with _ | c
        · exact ⟨rfl, 422, rfl, by norm_num, by norm_num⟩
        · have hpf : pythonFloat a = none := by
            rcases h with h | h | h | h
            · exact absurd h (by simp)
            · exact absurd h (by simp)
            · exact absurd h (by simp)
            · exact h a rfl
          refine ⟨?_, 422, ?_, by norm_num, by norm_num⟩ <;>
            simp [add_expense, hpf]
  · intro h
    refine ⟨?_, 422, ?_, by norm_num, by norm_num⟩ <;>
      simp [delete_expense, h]

theorem c3_witness :
    ((add_expense sampleDB ⟨some "Tea", some "abc", some "Food"⟩ sampleDate).1
        = sampleDB
      ∧ ∃ s, (add_expense sampleDB ⟨some "Tea", some "abc", some "Food"⟩
          sampleDate).2 = Response.clientError s ∧ 400 ≤ s ∧ s < 500)
    ∧ ((delete_expense sampleDB "x").1 = sampleDB
      ∧ ∃ s, (delete_expense sampleDB "x").2 = Response.clientError s
          ∧ 400 ≤ s ∧ s < 500) := by
  have h := c3_validation_rejects_without_mutation sampleDB
    ⟨some "Tea", some "abc", some "Food"⟩ sampleDate "x"
  refine ⟨h.1 (Or.inr (Or.inr (Or.inr ?_))), h.2 (by decide)⟩
  intro a ha
  simp only [Option.some.injEq] at ha
  subst ha
  decide

/-- C7: a create request whose required fields are present and whose amount
parses persists exactly one new record — the old rows plus one row dated with
the server's current local date in `YYYY-MM-DD` form — and answers a 303
redirect to `/`. -/
theorem c7_create_persists_one_row (db : DB) (form : AddForm) (now : Date)
    (t a c : String) (q : ℚ) (ht : form.title = some t)
    (ha : form.amount = some a) (hc : form.category = some c)
    (hq : pythonFloat a = some q) :
    (add_expense db form now).1.rows
      = db.rows ++ [⟨db.nextId, t, q, c, fmtDate now⟩]
    ∧ (add_expense db form now).2 = Response.redirect "/" 303 := by
  rcases form with ⟨ot, oa, oc⟩
  simp only at ht ha hc
  subst ht
  subst ha
  subst hc
  constructor <;> simp [add_expense, hq, insertRow]

theorem c7_witness :
    (add_expense sampleDB ⟨some "Bus", some "2", some "Transport"⟩
        sampleDate).1.rows
      = sampleDB.rows ++ [⟨sampleDB.nextId, "Bus", 2, "Transport",
          fmtDate sampleDate⟩]
    ∧ (add_expense sampleDB ⟨some "Bus", some "2", some "Transport"⟩
        sampleDate).2 = Response.redirect "/" 303 :=
  c7_create_persists_one_row sampleDB ⟨some "Bus", some "2", some "Transport"⟩
    sampleDate "Bus" "2" "Transport" 2 rfl rfl rfl (by decide)

/-- C8: once created, a record never changes: there is no update route, and
every operation other than a delete naming the record's own id — a create, a
delete of a different id, or a rejected delete — leaves the record present in
the store with all its fields (in particular `date`) unchanged. -/
theorem c8_records_immutable (db : DB) (e : Expense) (he : e ∈ db.rows)
    (form : AddForm) (now : Date) (raw : String) :
    e ∈ (add_expense db form now).1.rows
    ∧ (∀ i, pythonInt raw = some i → e.id ≠ i →
        e ∈ (delete_expense db raw).1.rows)
    ∧ (pythonInt raw = none → e ∈ (delete_expense db raw).1.rows) := by
  refine ⟨?_, ?_, ?_⟩
  · rcases form with ⟨_ | t, _ | a, _ | c⟩
    all_goals try (simpa [add_expense] using he)
    cases hpf : pythonFloat a with
    | none => simpa [add_expense, hpf] using he
    | some q => simp [add_expense, hpf, insertRow, he]
  · intro i hi hne
    simp [delete_expense, hi, deleteById, List.mem_filter, he, hne]
  · intro h
    simpa [delete_expense, h] using he

theorem c8_witness :
    sampleRowA ∈ (add_expense sampleDB ⟨some "Tea", some "3", some "Food"⟩
        sampleDate).1.rows
    ∧ sampleRowA ∈ (delete_expense sampleDB "2").1.rows := by
  have h := c8_records_immutable sampleDB sampleRowA (by decide)
    ⟨some "Tea", some "3", some "Food"⟩ sampleDate "2"
  exact ⟨h.1, h.2.1 2 (by decide) (by decide)⟩

/-- C9: a create request whose `title` field is present but empty succeeds —
no server-side non-emptiness check exists — inserting a record with the empty
title and answering the 303 redirect. -/
theorem c9_empty_title_accepted (db : DB) (a c : String) (q : ℚ) (now : Date)
    (hq : pythonFloat a = some q) :
    (add_expense db ⟨some "", some a, some c⟩ now).1.rows
      = db.rows ++ [⟨db.nextId, "", q, c, fmtDate now⟩]
    ∧ (add_expense db ⟨some "", some a, some c⟩ now).2
      = Response.redirect "/" 303 := by
  constructor <;> simp [add_expense, hq, insertRow]

theorem c9_witness :
    (add_expense sampleDB ⟨some "", some "5", some "Other"⟩ sampleDate).1.rows
      = sampleDB.rows ++ [⟨sampleDB.nextId, "", 5, "Other", fmtDate sampleDate⟩]
    ∧ (add_expense sampleDB ⟨some "", some "5", some "Other"⟩ sampleDate).2
      = Response.redirect "/" 303 :=
  c9_empty_title_accepted sampleDB "5" "Other" 5 sampleDate (by decide)

/-- C10: for any two dates the create handler can produce, the zero-padded
`YYYY-MM-DD` byte string of one compares greater (in the byte order used by
`ORDER BY date DESC`) than that of the other exactly when its calendar date is
later. -/
theorem c10_lex_order_is_chronological (a b : Date) (ha : ValidDate a)
    (hb : ValidDate b) :
    lexLt (fmtDate b) (fmtDate a) = true ↔ chronoLt b a := by
  obtain ⟨ha1, ha2, ha3, ha4, ha5, ha6⟩ := ha
  obtain ⟨hb1, hb2, hb3, hb4, hb5, hb6⟩ := hb
  have h4 : (10 : ℕ) ^ 4 = 10000 := by norm_num
  have h2 : (10 : ℕ) ^ 2 = 100 := by norm_num
  have hay : a.year < 10 ^ 4 := by omega
  have hby : b.year < 10 ^ 4 := by omega
  have ham : a.month < 10 ^ 2 := by omega
  have hbm : b.month < 10 ^ 2 := by omega
  have had : a.day < 10 ^ 2 := by omega
  have hbd : b.day < 10 ^ 2 := by omega
  rw [fmtDate, fmtDate, lexLt_dig 4 _ _ hby hay, lexLt_cons_same,
    lexLt_dig 2 _ _ hbm ham, lexLt_cons_same,
    ← List.append_nil (dig 2 b.day), ← List.append_nil (dig 2 a.day),
    lexLt_dig 2 _ _ hbd had]
  simp only [chronoLt]
  split_ifs <;> simp [lexLt] <;> omega

theorem c10_witness :
    lexLt (fmtDate ⟨2025, 3, 7⟩) (fmtDate ⟨2025, 12, 1⟩) = true
      ↔ chronoLt ⟨2025, 3, 7⟩ ⟨2025, 12, 1⟩ :=
  c10_lex_order_is_chronological ⟨2025, 12, 1⟩ ⟨2025, 3, 7⟩ (by decide)
    (by decide)

end ExpenseTracker
